import Mathlib

/-!
Verification of the utility module `src/lib/utils.ts` of the Magnify
repository.  JavaScript values are modelled by the inductive type `JVal`;
JavaScript objects become association lists of string keys (insertion
order), which is the enumeration order `for ... in` uses for the
non-integer keys occurring in the claims.  Each definition below is a
shallow embedding of the correspondingly named TypeScript function.
-/

set_option autoImplicit false

namespace Magnify

/-- A JavaScript runtime value, as far as the utility module inspects it:
`null`, `undefined`, booleans, numbers (the source never produces
non-integer numbers at merge keys, so `Int` suffices), strings, arrays and
plain objects (own enumerable string keys, in insertion order). -/
inductive JVal where
  | vNull : JVal
  | vUndefined : JVal
  | vBool : Bool → JVal
  | vNum : Int → JVal
  | vStr : String → JVal
  | vArr : List JVal → JVal
  | vObj : List (String × JVal) → JVal

namespace JVal

/-- JavaScript truthiness: `null`, `undefined`, `false`, `0` and
`""` are falsy; every object and array is truthy. -/
def truthy : JVal → Bool
  | vNull => false
  | vUndefined => false
  | vBool b => b
  | vNum n => n != 0
  | vStr s => s != ""
  | vArr _ => true
  | vObj _ => true

/-- `typeof v === "object"`: true for `null`, arrays and plain objects. -/
def typeofObject : JVal → Bool
  | vNull => true
  | vArr _ => true
  | vObj _ => true
  | _ => false

/-- The guard `v && typeof v === "object"` used on both sides by
`deepMergeObjects` before recursing: truthy and of object type, i.e. an
array or a plain object. -/
def isMergeable (v : JVal) : Bool :=
  v.truthy && v.typeofObject

/-- The test `obj2 === null || obj2 === undefined`. -/
def isNullOrUndefined : JVal → Bool
  | vNull => true
  | vUndefined => true
  | _ => false

theorem isMergeable_iff (v : JVal) :
    v.isMergeable = true ↔ (∃ xs, v = vArr xs) ∨ (∃ fs, v = vObj fs) := by
  cases v <;> simp [isMergeable, truthy, typeofObject]

end JVal

open JVal

/-- The own enumerable entries of an array, keyed by decimal indices
starting at `i`: the pairs `{... arr}` spreads and `for ... in` walks. -/
def arrEntries (i : Nat) : List JVal → List (String × JVal)
  | [] => []
  | v :: rest => (toString i, v) :: arrEntries (i + 1) rest

/-- Property read `o[k]`.  On plain objects: the value stored at the first
matching key (JavaScript objects hold each key once).  On arrays: the
element at the decimal index `k`, or the non-enumerable `length` property.
Reads on primitives yield `undefined`, which is what every use site in
the utility module observes (the merge guard rejects primitives before
recursing into them). -/
def getProp : JVal → String → JVal
  | vObj fs, k =>
    match fs.find? (fun p => p.1 == k) with
    | some p => p.2
    | none => vUndefined
  | vArr xs, k =>
    if k == "length" then vNum (Int.ofNat xs.length)
    else
      match (arrEntries 0 xs).find? (fun p => p.1 == k) with
      | some p => p.2
      | none => vUndefined
  | _, _ => vUndefined

/-- The keys/values enumerated by `for (let key in obj1)` together with
`obj1.hasOwnProperty(key)`: own enumerable entries.  Objects and arrays
are the only inputs the merge ever iterates (its recursion guard requires
`typeof === "object"`); primitives enumerate nothing. -/
def enumEntries : JVal → List (String × JVal)
  | vObj fs => fs
  | vArr xs => arrEntries 0 xs
  | _ => []

/-- The object literal spread `{ ...obj2 }`: own enumerable entries of
`obj2`, an empty object for primitives. -/
def spreadObj : JVal → List (String × JVal)
  | vObj fs => fs
  | vArr xs => arrEntries 0 xs
  | _ => []

/-- Assignment `output[key] = v` on a plain object: overwrite in place if
the key is present, otherwise append at the end. -/
def setKey : List (String × JVal) → String → JVal → List (String × JVal)
  | [], k, v => [(k, v)]
  | p :: rest, k, v =>
    if p.1 == k then (k, v) :: rest else p :: setKey rest k v

mutual

/-- Size measure used to justify the termination of the recursive merge;
keys do not count, so the array entries produced by `arrEntries` weigh
the same as the underlying elements. -/
def jsz : JVal → Nat
  | vArr xs => 1 + jszL xs
  | vObj fs => 1 + jszF fs
  | _ => 1

/-- Size of a list of values (see `jsz`). -/
def jszL : List JVal → Nat
  | [] => 0
  | v :: rest => 1 + jsz v + jszL rest

/-- Size of a list of entries, counting only the values (see `jsz`). -/
def jszF : List (String × JVal) → Nat
  | [] => 0
  | p :: rest => 1 + jsz p.2 + jszF rest

end

theorem jsz_pos (v : JVal) : 1 ≤ jsz v := by
  cases v <;> simp [jsz]

theorem jszF_arrEntries (xs : List JVal) : ∀ i, jszF (arrEntries i xs) = jszL xs := by
  induction xs with
  | nil => intro i; rfl
  | cons v rest ih => intro i; simp [arrEntries, jszF, jszL, ih]

theorem jsz_of_mem_jszF {fs : List (String × JVal)} {p : String × JVal}
    (h : p ∈ fs) : jsz p.2 < 1 + jszF fs := by
  induction fs with
  | nil => cases h
  | cons q rest ih =>
    rcases List.mem_cons.mp h with rfl | h'
    · simp [jszF]; omega
    · have := ih h'
      simp [jszF]; omega

theorem jsz_find?_lt {fs : List (String × JVal)} {p : String × JVal}
    {pred : String × JVal → Bool} (h : fs.find? pred = some p) :
    jsz p.2 < 1 + jszF fs :=
  jsz_of_mem_jszF (List.mem_of_find?_eq_some h)

theorem jsz_getProp_lt {o : JVal} {k : String}
    (h : (getProp o k).isMergeable = true) : jsz (getProp o k) < jsz o := by
  cases o with
  | vObj fs =>
    rw [getProp] at *
    rcases hf : fs.find? (fun p => p.1 == k) with _ | p
    · rw [hf] at h; simp [isMergeable, truthy] at h
    · rw [hf] at h ⊢
      simpa [jsz] using jsz_find?_lt hf
  | vArr xs =>
    rw [getProp] at *
    by_cases hk : (k == "length") = true
    · rw [if_pos hk] at h; simp [isMergeable, typeofObject] at h
    · rw [if_neg hk] at h ⊢
      rcases hf : (arrEntries 0 xs).find? (fun p => p.1 == k) with _ | p
      · rw [hf] at h; simp [isMergeable, truthy] at h
      · rw [hf] at h ⊢
        have := jsz_find?_lt hf
        rw [jszF_arrEntries] at this
        simpa [jsz] using this
  | vNull => simp [getProp, isMergeable, truthy] at h
  | vUndefined => simp [getProp, isMergeable, truthy] at h
  | vBool b => simp [getProp, isMergeable, truthy] at h
  | vNum n => simp [getProp, isMergeable, truthy] at h
  | vStr s => simp [getProp, isMergeable, truthy] at h

theorem jszF_enumEntries_lt (o : JVal) : jszF (enumEntries o) < jsz o := by
  cases o <;> simp [enumEntries, jsz, jszF, jszF_arrEntries]

mutual

/-- Embedding of `deepMergeObjects(obj1, obj2)` from `src/lib/utils.ts`:
if `obj2` is `null` or `undefined` return `obj1`; otherwise start from
`{ ...obj2 }` and walk the own enumerable entries of `obj1`, recursively
merging when both sides pass the `v && typeof v === "object"` guard and
copying `obj1`'s value otherwise.  The result of the non-trivial branch
is always a plain object (the spread of an array is a plain object). -/
def deepMergeObjects (obj1 obj2 : JVal) : JVal :=
  if obj2.isNullOrUndefined then obj1
  else vObj (mergeLoop (enumEntries obj1) obj2 (spreadObj obj2))
termination_by jsz obj1 + jsz obj2
decreasing_by
  simp_wf
  have := jszF_enumEntries_lt obj1
  omega

/-- The `for (let key in obj1)` loop body of `deepMergeObjects`:
`entries` are the remaining own enumerable entries of `obj1` (so the
entry value is what `obj1[key]` reads), `obj2` is read but never written,
`out` is the accumulator `output`. -/
def mergeLoop : List (String × JVal) → JVal → List (String × JVal) → List (String × JVal)
  | [], _, out => out
  | (k, v1) :: rest, obj2, out =>
    let newv :=
      if h : (v1.isMergeable && (getProp obj2 k).isMergeable) = true
      then deepMergeObjects v1 (getProp obj2 k)
      else v1
    mergeLoop rest obj2 (setKey out k newv)
termination_by entries obj2 _ => jszF entries + jsz obj2
decreasing_by
  all_goals simp_wf
  all_goals simp [jszF]
  all_goals
    have h2 : (getProp obj2 k).isMergeable = true :=
      ((Bool.and_eq_true _ _).mp h).2
    have h3 := jsz_getProp_lt h2
    omega

end

/-- The per-key result of the merge loop: recursive merge when both sides
pass the object guard, otherwise `obj1`'s value. -/
def mergeVal (v1 v2 : JVal) : JVal :=
  if (v1.isMergeable && v2.isMergeable) = true then deepMergeObjects v1 v2 else v1

/-- A value is a scalar leaf when it is neither an array nor a plain
object (a mapping). -/
def isScalar : JVal → Bool
  | vArr _ => false
  | vObj _ => false
  | _ => true

theorem isMergeable_eq_false_of_isScalar {v : JVal} (h : isScalar v = true) :
    v.isMergeable = false := by
  cases v <;> simp_all [isScalar, isMergeable, truthy, typeofObject]

theorem deepMergeObjects_not_null {obj1 obj2 : JVal}
    (h : obj2.isNullOrUndefined = false) :
    deepMergeObjects obj1 obj2
      = vObj (mergeLoop (enumEntries obj1) obj2 (spreadObj obj2)) := by
  rw [deepMergeObjects, if_neg (by simp [h])]

theorem mergeLoop_nil (obj2 : JVal) (out : List (String × JVal)) :
    mergeLoop [] obj2 out = out := by
  rw [mergeLoop]

theorem mergeLoop_cons (k : String) (v1 : JVal) (rest : List (String × JVal))
    (obj2 : JVal) (out : List (String × JVal)) :
    mergeLoop ((k, v1) :: rest) obj2 out
      = mergeLoop rest obj2 (setKey out k (mergeVal v1 (getProp obj2 k))) := by
  rw [mergeLoop, mergeVal]
  simp only [dite_eq_ite]

theorem find?_setKey_self (out : List (String × JVal)) (k : String) (v : JVal) :
    (setKey out k v).find? (fun p => p.1 == k) = some (k, v) := by
  induction out with
  | nil => simp [setKey]
  | cons p rest ih =>
    by_cases hp : (p.1 == k) = true
    · simp [setKey, hp, List.find?]
    · simp only [setKey, hp, Bool.false_eq_true, if_false]
      rw [List.find?_cons_of_neg _ (by simpa using hp)]
      exact ih

theorem find?_setKey_ne (out : List (String × JVal)) {k k' : String} (v : JVal)
    (h : k' ≠ k) :
    (setKey out k v).find? (fun p => p.1 == k')
      = out.find? (fun p => p.1 == k') := by
  induction out with
  | nil =>
    have hk : (k == k') = false := by simpa using fun a => h a.symm
    simp [setKey, List.find?, hk]
  | cons p rest ih =>
    by_cases hp : (p.1 == k) = true
    · have hpk : p.1 = k := by simpa using hp
      have : (k == k') = false := by simpa using fun a => h a.symm
      rw [setKey, if_pos hp]
      rw [List.find?_cons_of_neg _ (by simpa using fun a => h a.symm)]
      rw [List.find?_cons_of_neg _ (by simp [hpk]; exact fun a => h a.symm)]
    · rw [setKey, if_neg (by simp_all)]
      by_cases hq : (p.1 == k') = true
      · rw [List.find?_cons_of_pos _ (by simpa using hq),
          List.find?_cons_of_pos _ (by simpa using hq)]
      · rw [List.find?_cons_of_neg _ (by simpa using hq),
          List.find?_cons_of_neg _ (by simpa using hq)]
        exact ih

theorem mergeLoop_find?_not_mem {entries : List (String × JVal)} {k : String}
    (obj2 : JVal) (out : List (String × JVal))
    (h : k ∉ entries.map Prod.fst) :
    (mergeLoop entries obj2 out).find? (fun p => p.1 == k)
      = out.find? (fun p => p.1 == k) := by
  induction entries generalizing out with
  | nil => rw [mergeLoop_nil]
  | cons p rest ih =>
    obtain ⟨k0, v0⟩ := p
    simp only [List.map_cons, List.mem_cons] at h
    push_neg at h
    rw [mergeLoop_cons, ih _ h.2, find?_setKey_ne _ _ h.1]

theorem mergeLoop_find?_mem {entries : List (String × JVal)} {k : String} {v1 : JVal}
    (obj2 : JVal) (out : List (String × JVal))
    (hnd : (entries.map Prod.fst).Nodup) (hmem : (k, v1) ∈ entries) :
    (mergeLoop entries obj2 out).find? (fun p => p.1 == k)
      = some (k, mergeVal v1 (getProp obj2 k)) := by
  induction entries generalizing out with
  | nil => cases hmem
  | cons p rest ih =>
    obtain ⟨k0, v0⟩ := p
    simp only [List.map_cons, List.nodup_cons] at hnd
    rcases List.mem_cons.mp hmem with heq | hmem'
    · cases heq
      rw [mergeLoop_cons,
        mergeLoop_find?_not_mem _ _ hnd.1,
        find?_setKey_self]
    · have hk : k ≠ k0 := by
        intro h
        exact hnd.1 (h ▸ (List.mem_map.mpr ⟨_, hmem', rfl⟩))
      rw [mergeLoop_cons, ih _ hnd.2 hmem']

theorem find?_of_mem_nodup {fs : List (String × JVal)} {k : String} {v : JVal}
    (hnd : (fs.map Prod.fst).Nodup) (hmem : (k, v) ∈ fs) :
    fs.find? (fun p => p.1 == k) = some (k, v) := by
  induction fs with
  | nil => cases hmem
  | cons p rest ih =>
    obtain ⟨k0, v0⟩ := p
    simp only [List.map_cons, List.nodup_cons] at hnd
    rcases List.mem_cons.mp hmem with heq | hmem'
    · cases heq
      simp [List.find?]
    · have hk : k0 ≠ k := by
        intro h
        exact hnd.1 (h ▸ (List.mem_map.mpr ⟨_, hmem', rfl⟩))
      rw [List.find?_cons_of_neg _ (by simpa using hk)]
      exact ih hnd.2 hmem'

theorem getProp_vObj (fs : List (String × JVal)) (k : String) :
    getProp (vObj fs) k
      = match fs.find? (fun p => p.1 == k) with
        | some p => p.2
        | none => vUndefined := by
  rw [getProp]

theorem getProp_vObj_of_mem {fs : List (String × JVal)} {k : String} {v : JVal}
    (hnd : (fs.map Prod.fst).Nodup) (hmem : (k, v) ∈ fs) :
    getProp (vObj fs) k = v := by
  rw [getProp_vObj, find?_of_mem_nodup hnd hmem]

theorem getProp_deepMerge_obj_of_mem {fs1 fs2 : List (String × JVal)} {k : String}
    {v1 : JVal} (hnd1 : (fs1.map Prod.fst).Nodup) (hmem : (k, v1) ∈ fs1) :
    getProp (deepMergeObjects (vObj fs1) (vObj fs2)) k
      = mergeVal v1 (getProp (vObj fs2) k) := by
  rw [deepMergeObjects_not_null (by rfl)]
  rw [getProp_vObj]
  rw [show enumEntries (vObj fs1) = fs1 from rfl,
    show spreadObj (vObj fs2) = fs2 from rfl]
  rw [mergeLoop_find?_mem _ _ hnd1 hmem]

theorem setKey_not_mem (out : List (String × JVal)) (k : String) (v : JVal)
    (h : k ∉ out.map Prod.fst) : setKey out k v = out ++ [(k, v)] := by
  induction out with
  | nil => rfl
  | cons p rest ih =>
    simp only [List.map_cons, List.mem_cons] at h
    push_neg at h
    rw [setKey, if_neg (by simpa using fun a => h.1 a.symm), ih h.2]
    simp

theorem mergeLoop_empty_overlay (entries : List (String × JVal)) :
    ∀ out : List (String × JVal),
      (out.map Prod.fst ++ entries.map Prod.fst).Nodup →
      mergeLoop entries (vObj []) out = out ++ entries := by
  induction entries with
  | nil => intro out _; rw [mergeLoop_nil, List.append_nil]
  | cons p rest ih =>
    intro out h
    obtain ⟨k, v⟩ := p
    have hget : getProp (vObj []) k = vUndefined := by
      rw [getProp_vObj]; rfl
    have hmv : mergeVal v vUndefined = v := by
      rw [mergeVal, if_neg]
      simp [isMergeable, truthy]
    have hk : k ∉ out.map Prod.fst := by
      intro hmem
      exact (List.nodup_append.mp h).2.2 hmem (List.mem_cons_self _ _)
    rw [mergeLoop_cons, hget, hmv, setKey_not_mem _ _ _ hk]
    rw [ih (out ++ [(k, v)]) (by simpa [List.append_assoc] using h)]
    simp

theorem toString_nat0 : toString (0 : Nat) = "0" := rfl

theorem toString_nat1 : toString (1 : Nat) = "1" := rfl

/-- **C1.** For every pair of mappings `obj1` (base) and `obj2` (overlay)
and every key present in both whose values are scalars (not mappings),
`deepMergeObjects(obj1, obj2)` maps that key to the base's value — base
always wins on scalar conflicts — and keys present only in the overlay
pass through unchanged. -/
theorem deepMergeObjects_base_wins_on_scalars
    (fs1 fs2 : List (String × JVal)) (k : String)
    (hnd1 : (fs1.map Prod.fst).Nodup) (hnd2 : (fs2.map Prod.fst).Nodup) :
    (∀ v1 v2, (k, v1) ∈ fs1 → (k, v2) ∈ fs2 →
        isScalar v1 = true → isScalar v2 = true →
        getProp (deepMergeObjects (vObj fs1) (vObj fs2)) k = v1)
    ∧ (∀ v2, k ∉ fs1.map Prod.fst → (k, v2) ∈ fs2 →
        getProp (deepMergeObjects (vObj fs1) (vObj fs2)) k = v2) := by
  constructor
  · intro v1 v2 h1 h2 hs1 _
    rw [getProp_deepMerge_obj_of_mem hnd1 h1, getProp_vObj_of_mem hnd2 h2]
    rw [mergeVal, if_neg]
    simp [isMergeable_eq_false_of_isScalar hs1]
  · intro v2 hk h2
    rw [deepMergeObjects_not_null (by rfl), getProp_vObj]
    rw [show enumEntries (vObj fs1) = fs1 from rfl,
      show spreadObj (vObj fs2) = fs2 from rfl]
    rw [mergeLoop_find?_not_mem _ _ hk, find?_of_mem_nodup hnd2 h2]

/-- Witness for C1: on `obj1 = {k: 1}` and `obj2 = {k: 2, m: 7}` the merge
keeps the base's `1` at the conflicting key `k` and passes the
overlay-only key `m` through. -/
theorem deepMergeObjects_base_wins_on_scalars_witness :
    getProp (deepMergeObjects (vObj [("k", vNum 1)])
        (vObj [("k", vNum 2), ("m", vNum 7)])) "k" = vNum 1
    ∧ getProp (deepMergeObjects (vObj [("k", vNum 1)])
        (vObj [("k", vNum 2), ("m", vNum 7)])) "m" = vNum 7 := by
  constructor
  · exact (deepMergeObjects_base_wins_on_scalars [("k", vNum 1)]
      [("k", vNum 2), ("m", vNum 7)] "k" (by simp) (by simp)).1
      (vNum 1) (vNum 2) (by simp) (by simp) rfl rfl
  · exact (deepMergeObjects_base_wins_on_scalars [("k", vNum 1)]
      [("k", vNum 2), ("m", vNum 7)] "m" (by simp) (by simp)).2
      (vNum 7) (by simp) (by simp)

/-- Counterexample to **C2**: on base `{a: [1]}` and overlay `{a: [2, 3]}`
the code does not keep the base's array outright: both arrays pass the
`typeof === "object"` guard, so they are merged recursively, which spreads
the overlay array into a plain object keyed by decimal indices and yields
`{0: 1, 1: 3}` — not the array `[1]`. -/
theorem deepMergeObjects_array_not_opaque_counterexample :
    getProp (deepMergeObjects (vObj [("a", vArr [vNum 1])])
        (vObj [("a", vArr [vNum 2, vNum 3])])) "a"
      = vObj [("0", vNum 1), ("1", vNum 3)]
    ∧ getProp (deepMergeObjects (vObj [("a", vArr [vNum 1])])
        (vObj [("a", vArr [vNum 2, vNum 3])])) "a"
      ≠ vArr [vNum 1] := by
  have h : getProp (deepMergeObjects (vObj [("a", vArr [vNum 1])])
      (vObj [("a", vArr [vNum 2, vNum 3])])) "a"
      = vObj [("0", vNum 1), ("1", vNum 3)] := by
    simp [deepMergeObjects_not_null, mergeLoop_cons, mergeLoop_nil, enumEntries,
      spreadObj, arrEntries, mergeVal, getProp, setKey, isMergeable, truthy,
      typeofObject, isNullOrUndefined, List.find?, toString_nat0, toString_nat1]
  refine ⟨h, ?_⟩
  rw [h]
  simp

/-- **C2 (amended).** When base and overlay both hold an array at a key,
`deepMergeObjects` does not treat the arrays as opaque: it recursively
merges them as index-keyed mappings, so the result at that key is the
recursive merge of the two arrays — always a plain mapping, never an
array (in particular never the base's array outright). -/
theorem deepMergeObjects_arrays_merged_recursively
    (fs1 fs2 : List (String × JVal)) (k : String) (a b : List JVal)
    (hnd1 : (fs1.map Prod.fst).Nodup) (hnd2 : (fs2.map Prod.fst).Nodup)
    (ha : (k, vArr a) ∈ fs1) (hb : (k, vArr b) ∈ fs2) :
    getProp (deepMergeObjects (vObj fs1) (vObj fs2)) k
      = deepMergeObjects (vArr a) (vArr b)
    ∧ (∀ xs ys zs : List JVal, deepMergeObjects (vArr xs) (vArr ys) ≠ vArr zs) := by
  constructor
  · rw [getProp_deepMerge_obj_of_mem hnd1 ha, getProp_vObj_of_mem hnd2 hb]
    rw [mergeVal, if_pos (by simp [isMergeable, truthy, typeofObject])]
  · intro xs ys zs
    rw [deepMergeObjects_not_null (by rfl)]
    simp

/-- Witness for the amended C2, at base `{a: [1]}`, overlay `{a: [2, 3]}`. -/
theorem deepMergeObjects_arrays_merged_recursively_witness :
    getProp (deepMergeObjects (vObj [("a", vArr [vNum 1])])
        (vObj [("a", vArr [vNum 2, vNum 3])])) "a"
      = deepMergeObjects (vArr [vNum 1]) (vArr [vNum 2, vNum 3])
    ∧ deepMergeObjects (vArr [vNum 1]) (vArr [vNum 2, vNum 3]) ≠ vArr [vNum 1] :=
  ⟨(deepMergeObjects_arrays_merged_recursively [("a", vArr [vNum 1])]
      [("a", vArr [vNum 2, vNum 3])] "a" [vNum 1] [vNum 2, vNum 3]
      (by simp) (by simp) (by simp) (by simp)).1,
   (deepMergeObjects_arrays_merged_recursively [("a", vArr [vNum 1])]
      [("a", vArr [vNum 2, vNum 3])] "a" [vNum 1] [vNum 2, vNum 3]
      (by simp) (by simp) (by simp) (by simp)).2 [vNum 1] [vNum 2, vNum 3] [vNum 1]⟩

/-- **C7.** Identity laws of the merge: merging any mapping with an empty
overlay returns it unchanged (structural equality), merging an empty base
over any overlay returns the overlay, and a `null`/`undefined` overlay
returns the base argument unchanged. -/
theorem deepMergeObjects_identity_laws :
    (∀ fs : List (String × JVal), (fs.map Prod.fst).Nodup →
        deepMergeObjects (vObj fs) (vObj []) = vObj fs)
    ∧ (∀ fs : List (String × JVal), deepMergeObjects (vObj []) (vObj fs) = vObj fs)
    ∧ (∀ base : JVal, deepMergeObjects base vNull = base)
    ∧ (∀ base : JVal, deepMergeObjects base vUndefined = base) := by
  refine ⟨?_, ?_, ?_, ?_⟩
  · intro fs h
    rw [deepMergeObjects_not_null (by rfl)]
    rw [show enumEntries (vObj fs) = fs from rfl,
      show spreadObj (vObj []) = ([] : List (String × JVal)) from rfl]
    rw [mergeLoop_empty_overlay fs [] (by simpa using h)]
    simp
  · intro fs
    rw [deepMergeObjects_not_null (by rfl)]
    rw [show enumEntries (vObj []) = ([] : List (String × JVal)) from rfl,
      show spreadObj (vObj fs) = fs from rfl]
    rw [mergeLoop_nil]
  · intro base
    rw [deepMergeObjects]
    simp [isNullOrUndefined]
  · intro base
    rw [deepMergeObjects]
    simp [isNullOrUndefined]

/-! ## URL query helpers

`formUrlQuery` and `removeKeysFromQuery` delegate parsing and
serialization to the third-party `qs` library.  The definitions below
model `qs.parse` / `qs.stringify` on flat, already-decoded query strings
with distinct keys — the shape every caller in this repository passes —
as an ordered list of key/value entries, where a value of `none` stands
for JavaScript `null`. -/

/-- Split a character list at every occurrence of the separator `c`;
always returns at least one (possibly empty) group. -/
def splitOnChar (c : Char) : List Char → List (List Char)
  | [] => [[]]
  | x :: rest =>
    match splitOnChar c rest with
    | [] => [[]]
    | g :: gs => if x = c then [] :: g :: gs else (x :: g) :: gs

/-- Join character-list groups with the separator `c` between them. -/
def joinChar (c : Char) : List (List Char) → List Char
  | [] => []
  | [g] => g
  | g :: gs => g ++ c :: joinChar c gs

/-- One `key=value` component of a query string: text before the first
`=` is the key, the rest is the value; a component without `=` parses to
the empty-string value, as `qs.parse` does. -/
def parsePair (cs : List Char) : String × Option String :=
  match splitOnChar '=' cs with
  | [] => (String.mk cs, some "")
  | [k] => (String.mk k, some "")
  | k :: rest => (String.mk k, some (String.mk (joinChar '=' rest)))

/-- Model of `qs.parse` on a flat query string: split on `&` and parse
each component; the empty string parses to the empty mapping. -/
def qsParse (s : String) : List (String × Option String) :=
  if s = "" then [] else (splitOnChar '&' s.data).map parsePair

/-- Model of `qs.stringify` with the `skipNulls` option: emit
`key=value` components joined by `&`, rendering a `null` value as `key=`
when `skipNulls` is off and omitting the entry when it is on. -/
def qsStringify (skipNulls : Bool) : List (String × Option String) → String
  | [] => ""
  | (k, none) :: rest =>
    if skipNulls then qsStringify skipNulls rest
    else
      let tail := qsStringify skipNulls rest
      if tail = "" then k ++ "=" else k ++ "=" ++ "&" ++ tail
  | (k, some v) :: rest =>
    let tail := qsStringify skipNulls rest
    if tail = "" then k ++ "=" ++ v else k ++ "=" ++ v ++ "&" ++ tail

/-- The object update `{ ...qs.parse(searchParams.toString()), [key]: value }`:
overwrite the key in place if present, else append it at the end. -/
def setKeyQ : List (String × Option String) → String → Option String → List (String × Option String)
  | [], k, v => [(k, v)]
  | p :: rest, k, v =>
    if p.1 == k then (k, v) :: rest else p :: setKeyQ rest k v

/-- Embedding of `formUrlQuery({searchParams, key, value})` from
`src/lib/utils.ts`: parse the current query string, set/overwrite `key`
to `value`, and re-serialize with `skipNulls: true` after the caller's
current pathname (`window.location.pathname` is passed explicitly as
`pathname`). -/
def formUrlQuery (pathname searchParams key : String) (value : Option String) : String :=
  pathname ++ "?" ++ qsStringify true (setKeyQ (qsParse searchParams) key value)

/-- The statement `delete currentUrl[key]` of `removeKeysFromQuery`:
drop the entry stored at `key`, keeping the others in place. -/
def removeEntry (key : String) (ps : List (String × Option String)) :
    List (String × Option String) :=
  ps.filter (fun p => p.1 != key)

/-- The two mutation passes of `removeKeysFromQuery`: first
`keysToRemove.forEach(key => delete currentUrl[key])`, then the sweep
deleting every remaining key whose value is loosely equal to `null`. -/
def removeKeysParams (currentUrl : List (String × Option String))
    (keysToRemove : List String) : List (String × Option String) :=
  (keysToRemove.foldl (fun acc key => removeEntry key acc) currentUrl).filter
    (fun p => p.2.isSome)

/-- Embedding of `removeKeysFromQuery({searchParams, keysToRemove})` from
`src/lib/utils.ts` (`window.location.pathname` passed explicitly as
`pathname`). -/
def removeKeysFromQuery (pathname searchParams : String)
    (keysToRemove : List String) : String :=
  pathname ++ "?" ++ qsStringify false (removeKeysParams (qsParse searchParams) keysToRemove)

theorem find?_setKeyQ_self (ps : List (String × Option String)) (k : String)
    (v : Option String) :
    (setKeyQ ps k v).find? (fun p => p.1 == k) = some (k, v) := by
  induction ps with
  | nil => simp [setKeyQ]
  | cons p rest ih =>
    by_cases hp : (p.1 == k) = true
    · simp [setKeyQ, hp, List.find?]
    · simp only [setKeyQ, hp, Bool.false_eq_true, if_false]
      rw [List.find?_cons_of_neg _ (by simpa using hp)]
      exact ih

theorem find?_setKeyQ_ne (ps : List (String × Option String)) {k k' : String}
    (v : Option String) (h : k' ≠ k) :
    (setKeyQ ps k v).find? (fun p => p.1 == k')
      = ps.find? (fun p => p.1 == k') := by
  induction ps with
  | nil =>
    have hk : (k == k') = false := by simpa using fun a => h a.symm
    simp [setKeyQ, List.find?, hk]
  | cons p rest ih =>
    by_cases hp : (p.1 == k) = true
    · have hpk : p.1 = k := by simpa using hp
      rw [setKeyQ, if_pos hp]
      rw [List.find?_cons_of_neg _ (by simpa using fun a => h a.symm)]
      rw [List.find?_cons_of_neg _ (by simp [hpk]; exact fun a => h a.symm)]
    · rw [setKeyQ, if_neg (by simp_all)]
      by_cases hq : (p.1 == k') = true
      · rw [List.find?_cons_of_pos _ (by simpa using hq),
          List.find?_cons_of_pos _ (by simpa using hq)]
      · rw [List.find?_cons_of_neg _ (by simpa using hq),
          List.find?_cons_of_neg _ (by simpa using hq)]
        exact ih

theorem setKeyQ_keys (ps : List (String × Option String)) (k : String)
    (v : Option String) :
    (setKeyQ ps k v).map Prod.fst
      = if k ∈ ps.map Prod.fst then ps.map Prod.fst
        else ps.map Prod.fst ++ [k] := by
  induction ps with
  | nil => simp [setKeyQ]
  | cons p rest ih =>
    by_cases hp : (p.1 == k) = true
    · have hpk : p.1 = k := by simpa using hp
      simp [setKeyQ, hp, hpk]
    · have hpk : p.1 ≠ k := by simpa using hp
      simp only [setKeyQ, hp, Bool.false_eq_true, if_false, List.map_cons, ih]
      by_cases hm : k ∈ rest.map Prod.fst
      · simp [hm, hpk.symm]
      · simp [hm, hpk.symm]

theorem qsStringify_skipNulls (ps : List (String × Option String)) :
    qsStringify true ps = qsStringify false (ps.filter (fun p => p.2.isSome)) := by
  induction ps with
  | nil => rfl
  | cons p rest ih =>
    obtain ⟨k, v⟩ := p
    cases v with
    | none => simpa [qsStringify] using ih
    | some s => simp [qsStringify, ih]

theorem find?_filter_of_imp (l : List (String × Option String))
    (pred f : String × Option String → Bool)
    (h : ∀ p ∈ l, pred p = true → f p = true) :
    (l.filter f).find? pred = l.find? pred := by
  induction l with
  | nil => rfl
  | cons p rest ih =>
    have ihr := ih (fun q hq => h q (List.mem_cons_of_mem _ hq))
    by_cases hpred : pred p = true
    · have hf := h p (List.mem_cons_self _ _) hpred
      rw [List.filter_cons_of_pos hf,
        List.find?_cons_of_pos _ hpred, List.find?_cons_of_pos _ hpred]
    · by_cases hf : f p = true
      · rw [List.filter_cons_of_pos hf,
          List.find?_cons_of_neg _ (by simpa using hpred),
          List.find?_cons_of_neg _ (by simpa using hpred)]
        exact ihr
      · rw [List.filter_cons_of_neg (by simpa using hf),
          List.find?_cons_of_neg _ (by simpa using hpred)]
        exact ihr

theorem removeFold_eq_filter (keys : List String) :
    ∀ ps : List (String × Option String),
      keys.foldl (fun acc key => removeEntry key acc) ps
        = ps.filter (fun p => !(keys.contains p.1)) := by
  induction keys with
  | nil => intro ps; simp
  | cons key rest ih =>
    intro ps
    rw [List.foldl_cons, ih (removeEntry key ps), removeEntry, List.filter_filter]
    refine List.filter_congr ?_
    intro p _
    by_cases h1 : p.1 = key <;> simp [h1, List.contains_cons]

/-- **C3.** `formUrlQuery` parses the existing query string,
unconditionally sets/overwrites the given key to the given value,
re-serializes preserving all other existing parameters in their original
order, and skips emitting any key whose resulting value is null; in
particular, for query string `type=fill` with key `color` and value
`red`, the result's query part contains both `type=fill` and
`color=red`. -/
theorem formUrlQuery_updates_query
    (ps : List (String × Option String)) (k k' : String) (v : Option String) :
    ((setKeyQ ps k v).find? (fun p => p.1 == k) = some (k, v))
    ∧ (k' ≠ k → (setKeyQ ps k v).find? (fun p => p.1 == k')
        = ps.find? (fun p => p.1 == k'))
    ∧ ((setKeyQ ps k v).map Prod.fst
        = if k ∈ ps.map Prod.fst then ps.map Prod.fst
          else ps.map Prod.fst ++ [k])
    ∧ (qsStringify true ps = qsStringify false (ps.filter (fun p => p.2.isSome)))
    ∧ formUrlQuery "/p" "type=fill" "color" (some "red") = "/p?type=fill&color=red" :=
  ⟨find?_setKeyQ_self ps k v,
   fun h => find?_setKeyQ_ne ps v h,
   setKeyQ_keys ps k v,
   qsStringify_skipNulls ps,
   rfl⟩

/-- Witness for C3 at query string `type=fill`, key `color`, value `red`. -/
theorem formUrlQuery_updates_query_witness :
    ((setKeyQ [("type", some "fill")] "color" (some "red")).find?
        (fun p => p.1 == "color") = some ("color", some "red"))
    ∧ ((setKeyQ [("type", some "fill")] "color" (some "red")).find?
        (fun p => p.1 == "type")
        = [("type", some "fill")].find? (fun p => p.1 == "type"))
    ∧ formUrlQuery "/p" "type=fill" "color" (some "red") = "/p?type=fill&color=red" :=
  ⟨(formUrlQuery_updates_query [("type", some "fill")] "color" "type" (some "red")).1,
   (formUrlQuery_updates_query [("type", some "fill")] "color" "type" (some "red")).2.1
     (by decide),
   (formUrlQuery_updates_query [("type", some "fill")] "color" "type" (some "red")).2.2.2.2⟩

/-- **C4.** `removeKeysFromQuery` parses the query string, deletes every
key in `keysToRemove` (a no-op for absent keys), additionally strips any
remaining key whose value is null, and re-serializes the rest preserving
the relative key order of the original string; in particular, removing
`["color"]` from `type=fill&color=red` yields a query part containing
only `type=fill`. -/
theorem removeKeysFromQuery_removes_keys
    (ps : List (String × Option String)) (keys : List String) (k : String) :
    (k ∉ ps.map Prod.fst → removeEntry k ps = ps)
    ∧ (k ∈ keys → (removeKeysParams ps keys).find? (fun p => p.1 == k) = none)
    ∧ (k ∉ keys → (∀ p ∈ ps, p.2.isSome = true) →
        (removeKeysParams ps keys).find? (fun p => p.1 == k)
          = ps.find? (fun p => p.1 == k))
    ∧ (∀ p ∈ removeKeysParams ps keys, p.2.isSome = true)
    ∧ (removeKeysParams ps keys).Sublist ps
    ∧ removeKeysFromQuery "/p" "type=fill&color=red" ["color"] = "/p?type=fill" := by
  refine ⟨?_, ?_, ?_, ?_, ?_, rfl⟩
  · intro h
    rw [removeEntry]
    refine List.filter_eq_self.mpr ?_
    intro p hp
    simp only [bne_iff_ne, ne_eq]
    intro hk
    exact h (List.mem_map.mpr ⟨p, hp, hk⟩)
  · intro hk
    rw [removeKeysParams, removeFold_eq_filter]
    refine List.find?_eq_none.mpr ?_
    intro p hp
    have h1 := (List.mem_filter.mp hp).1
    have h2 := (List.mem_filter.mp h1).2
    simp only [Bool.not_eq_true'] at h2
    have h3 : p.1 ∉ keys := by
      intro hm
      have h4 : keys.contains p.1 = true := List.elem_iff.mpr hm
      rw [h2] at h4
      cases h4
    simp only [beq_iff_eq]
    intro hpk
    exact h3 (hpk ▸ hk)
  · intro hk hsome
    rw [removeKeysParams, removeFold_eq_filter, List.filter_filter]
    refine find?_filter_of_imp ps _ _ ?_
    intro p hp hpred
    have hpk : p.1 = k := by simpa using hpred
    have hc : (keys.contains p.1) = false := by
      rw [hpk]
      refine Bool.eq_false_iff.mpr ?_
      intro h'
      exact hk (List.elem_iff.mp h')
    simp [hc, hsome p hp]
    exact fun hm => hk (hpk ▸ hm)
  · intro p hp
    exact (List.mem_filter.mp hp).2
  · rw [removeKeysParams, removeFold_eq_filter, List.filter_filter]
    exact List.filter_sublist ps

/-- Witness for C4 at query string `type=fill&color=red`,
removing `["color"]`. -/
theorem removeKeysFromQuery_removes_keys_witness :
    ((removeKeysParams [("type", some "fill"), ("color", some "red")]
        ["color"]).find? (fun p => p.1 == "color") = none)
    ∧ ((removeKeysParams [("type", some "fill"), ("color", some "red")]
        ["color"]).find? (fun p => p.1 == "type")
        = [("type", some "fill"), ("color", some "red")].find?
            (fun p => p.1 == "type"))
    ∧ removeKeysFromQuery "/p" "type=fill&color=red" ["color"] = "/p?type=fill" :=
  ⟨(removeKeysFromQuery_removes_keys [("type", some "fill"), ("color", some "red")]
      ["color"] "color").2.1 (by decide),
   (removeKeysFromQuery_removes_keys [("type", some "fill"), ("color", some "red")]
      ["color"] "type").2.2.1 (by decide) (by decide),
   (removeKeysFromQuery_removes_keys [("type", some "fill"), ("color", some "red")]
      ["color"] "type").2.2.2.2.2⟩

/-- Witness for C7 at the mapping `{a: 1}` (and both trivial overlays). -/
theorem deepMergeObjects_identity_laws_witness :
    deepMergeObjects (vObj [("a", vNum 1)]) (vObj []) = vObj [("a", vNum 1)]
    ∧ deepMergeObjects (vObj []) (vObj [("a", vNum 1)]) = vObj [("a", vNum 1)]
    ∧ deepMergeObjects (vObj [("a", vNum 1)]) vNull = vObj [("a", vNum 1)]
    ∧ deepMergeObjects (vObj [("a", vNum 1)]) vUndefined = vObj [("a", vNum 1)] :=
  ⟨deepMergeObjects_identity_laws.1 [("a", vNum 1)] (by simp),
   deepMergeObjects_identity_laws.2.1 [("a", vNum 1)],
   deepMergeObjects_identity_laws.2.2.1 _,
   deepMergeObjects_identity_laws.2.2.2 _⟩

/-! ## Debounce

`debounce(func, delay)` returns a closure over a single `timeoutId`
slot.  The embedding makes the closure state and the event-driven timer
semantics explicit: `α` is the tuple of arguments `...args`, time is in
milliseconds. -/

/-- The closure state of a function returned by `debounce`: the
`timeoutId` slot holds the deadline and captured arguments of the single
pending `setTimeout` schedule, if any. -/
structure DebounceState (α : Type) where
  pending : Option (Nat × α)

/-- Embedding of the body of the debounced closure, invoked at time `t`:
`if (timeoutId) clearTimeout(timeoutId)` cancels any pending schedule,
then `timeoutId = setTimeout(() => func.apply(null, args), delay)`
stores the one fresh schedule, firing at `t + delay` with the arguments
of this call. -/
def debounceCall {α : Type} (delay t : Nat) (args : α) (_s : DebounceState α) :
    DebounceState α :=
  ⟨some (t + delay, args)⟩

/-- Single-threaded event-loop execution of a debounced closure on a
time-ordered list of calls: before a call at time `t`, a pending timer
whose deadline has passed has already fired (recording an invocation of
`func` with its captured arguments; `clearTimeout` on a fired timer is a
no-op), a still-pending timer is cancelled; each call then replaces the
schedule via `debounceCall`.  After the last call the remaining pending
timer fires.  Returns the argument tuples of the underlying invocations
of `func`, in order. -/
def debounceRun {α : Type} (delay : Nat) : List (Nat × α) → Option (Nat × α) → List α
  | [], pending =>
    match pending with
    | some (_, a) => [a]
    | none => []
  | (t, args) :: calls, pending =>
    match pending with
    | some (d, pa) =>
      if d ≤ t then
        pa :: debounceRun delay calls (debounceCall delay t args ⟨pending⟩).pending
      else debounceRun delay calls (debounceCall delay t args ⟨pending⟩).pending
    | none => debounceRun delay calls (debounceCall delay t args ⟨pending⟩).pending

theorem debounceRun_pending_of_chain {α : Type} (delay : Nat) :
    ∀ (rest : List (Nat × α)) (t : Nat) (args : α),
      List.Chain' (fun p q : Nat × α => p.1 ≤ q.1 ∧ q.1 < p.1 + delay) ((t, args) :: rest) →
      debounceRun delay rest (some (t + delay, args))
        = [(((t, args) :: rest).getLast (List.cons_ne_nil _ _)).2] := by
  intro rest
  induction rest with
  | nil => intro t args _; rfl
  | cons c rest' ih =>
    intro t args hchain
    obtain ⟨t', a'⟩ := c
    have hstep := List.chain'_cons.mp hchain
    have hlt : t' < t + delay := hstep.1.2
    rw [debounceRun]
    simp only [if_neg (show ¬ (t + delay ≤ t') from by omega)]
    rw [show (debounceCall delay t' a' ⟨some (t + delay, args)⟩).pending
        = some (t' + delay, a') from rfl]
    rw [ih t' a' hstep.2]
    rw [List.getLast_cons (List.cons_ne_nil _ _)]

/-- **C5.** A debounced closure owns at most one pending schedule (its
state is the single `timeoutId` slot, and each call replaces it —
`debounceCall`), so any non-empty sequence of calls in which each call
arrives no earlier than the previous one and strictly before the
previous call's deadline produces exactly one underlying invocation of
`func`, with the arguments of the last call.  Five calls within a window
shorter than the delay are the claim's special case. -/
theorem debounce_coalesces_calls {α : Type} (delay : Nat) (calls : List (Nat × α))
    (hne : calls ≠ [])
    (hchain : List.Chain' (fun p q : Nat × α => p.1 ≤ q.1 ∧ q.1 < p.1 + delay) calls) :
    debounceRun delay calls none = [(calls.getLast hne).2] := by
  match calls, hne with
  | (t, args) :: rest, _ =>
    rw [debounceRun]
    rw [show (debounceCall delay t args ⟨none⟩).pending = some (t + delay, args) from rfl]
    exact debounceRun_pending_of_chain delay rest t args hchain

/-- Witness for C5: five calls at times 0..4 with delay 10 produce the
single invocation with the last call's arguments. -/
theorem debounce_coalesces_calls_witness :
    debounceRun 10 [(0, "a"), (1, "b"), (2, "c"), (3, "d"), (4, "e")] none = ["e"] :=
  debounce_coalesces_calls 10 [(0, "a"), (1, "b"), (2, "c"), (3, "d"), (4, "e")]
    (by simp) (by simp [List.chain'_cons])

/-! ## Error normalization -/

/-- A value reaching `handleError`: either a JavaScript `Error` instance
(`error instanceof Error`), which carries a `message`, or any other
runtime value (a thrown string is `val (vStr s)`). -/
inductive JSThrown where
  | errObj : String → JSThrown
  | val : JVal → JSThrown

mutual

/-- `JSON.stringify(error)` as interpolated into the template literal of
`handleError` — the only place the utility module serializes a value.
Top-level `undefined` stringifies to the `undefined` value, which the
template literal renders as `undefined`.  String escaping and the
dropping of `undefined` members inside containers are elided; no caller
in the module relies on them. -/
def jsonStringify : JVal → String
  | vNull => "null"
  | vUndefined => "undefined"
  | vBool true => "true"
  | vBool false => "false"
  | vNum n => toString n
  | vStr s => "\"" ++ s ++ "\""
  | vArr xs => "[" ++ jsonList xs ++ "]"
  | vObj fs => "\x7b" ++ jsonFields fs ++ "\x7d"

/-- Comma-separated serialization of array elements (see `jsonStringify`). -/
def jsonList : List JVal → String
  | [] => ""
  | v :: rest => jsonStringify v ++ (if rest.isEmpty then "" else ",") ++ jsonList rest

/-- Comma-separated serialization of object fields (see `jsonStringify`). -/
def jsonFields : List (String × JVal) → String
  | [] => ""
  | (k, v) :: rest =>
    "\"" ++ k ++ "\":" ++ jsonStringify v
      ++ (if rest.isEmpty then "" else ",") ++ jsonFields rest

end

/-- Embedding of `handleError(error)` from `src/lib/utils.ts`.  The
function always throws, so its observable behaviour is the message of
the thrown `Error`; the `Empty` payload of the success case records that
it never returns normally.  Branch order follows the source: `instanceof
Error` first, then `typeof error === "string"`, then the unknown shape. -/
def handleError : JSThrown → Except String Empty
  | .errObj m => .error ("Error: " ++ m)
  | .val (vStr s) => .error ("Error: " ++ s)
  | .val v => .error ("Unknown error: " ++ jsonStringify v)

/-- **C6.** `handleError` never returns: every input yields a thrown
error whose message is derived from the input — the `message` field for
`Error` instances, the string itself for strings, a JSON serialization
otherwise — prefixed with `Error: ` for the two known shapes and
`Unknown error: ` otherwise.  In particular `RangeError("x")` fails with
a message containing `x`, `"plain"` with a message containing `plain`,
and `42` with a message containing the JSON rendering of `42`. -/
theorem handleError_throws_derived_message :
    (∀ e, ∃ msg, handleError e = .error msg)
    ∧ (∀ m, handleError (.errObj m) = .error ("Error: " ++ m))
    ∧ (∀ s, handleError (.val (vStr s)) = .error ("Error: " ++ s))
    ∧ (∀ v, (∀ s, v ≠ vStr s) →
        handleError (.val v) = .error ("Unknown error: " ++ jsonStringify v))
    ∧ handleError (.errObj "x") = .error ("Error: " ++ "x")
    ∧ handleError (.val (vStr "plain")) = .error ("Error: " ++ "plain")
    ∧ handleError (.val (vNum 42)) = .error ("Unknown error: " ++ "42") := by
  refine ⟨?_, fun m => rfl, fun s => rfl, ?_, rfl, rfl, rfl⟩
  · intro e
    match e with
    | .errObj m => exact ⟨_, rfl⟩
    | .val v => cases v <;> exact ⟨_, rfl⟩
  · intro v hv
    match v with
    | vStr s => exact absurd rfl (hv s)
    | vNull | vUndefined | vBool _ | vNum _ | vArr _ | vObj _ => rfl

/-- Witness for C6 at the unknown-shape input `42`. -/
theorem handleError_throws_derived_message_witness :
    handleError (.val (vNum 42)) = .error ("Unknown error: " ++ jsonStringify (vNum 42)) :=
  handleError_throws_derived_message.2.2.2.1 (vNum 42) (fun _ h => JVal.noConfusion h)

/-! ## Shimmer placeholder and data URL -/

/-- Embedding of `shimmer(w, h)` from `src/lib/utils.ts`: the inline SVG
template literal with `${w}` / `${h}` interpolated. -/
def shimmer (w h : Nat) : String :=
  "\n    <svg width=\"" ++ toString w ++ "\" height=\"" ++ toString h
    ++ "\" version=\"1.1\" xmlns=\"http://www.w3.org/2000/svg\" xmlns:xlink=\"http://www.w3.org/1999/xlink\">\n      <defs>\n        <linearGradient id=\"g\">\n          <stop stop-color=\"#7986AC\" offset=\"20%\" />\n          <stop stop-color=\"#68769e\" offset=\"50%\" />\n          <stop stop-color=\"#7986AC\" offset=\"70%\" />\n        </linearGradient>\n      </defs>\n      <rect width=\""
    ++ toString w ++ "\" height=\"" ++ toString h ++ "\" fill=\"#7986AC\" />\n      <rect id=\"r\" width=\""
    ++ toString w ++ "\" height=\"" ++ toString h ++ "\" fill=\"url(#g)\" />\n      <animate xlink:href=\"#r\" attributeName=\"x\" from=\"-"
    ++ toString w ++ "\" to=\"" ++ toString w ++ "\" dur=\"1s\" repeatCount=\"indefinite\"  />\n    </svg>"

/-- The base64 alphabet. -/
def base64Table : List Char :=
  "ABCDEFGHIJKLMNOPQRSTUVWXYZabcdefghijklmnopqrstuvwxyz0123456789+/".data

/-- The base64 digit for a 6-bit value. -/
def b64char (n : Nat) : Char := base64Table.getD n '?'

/-- Standard base64: encode byte triples into four digits, padding the
final partial group with `=`. -/
def base64Chunks : List Nat → List Char
  | [] => []
  | [a] => [b64char (a / 4), b64char ((a % 4) * 16), '=', '=']
  | [a, b] => [b64char (a / 4), b64char ((a % 4) * 16 + b / 16), b64char ((b % 16) * 4), '=']
  | a :: b :: c :: rest =>
    b64char (a / 4) :: b64char ((a % 4) * 16 + b / 16)
      :: b64char ((b % 16) * 4 + c / 64) :: b64char (c % 64) :: base64Chunks rest

/-- Base64 of a byte list, as a string. -/
def base64Encode (bytes : List Nat) : String := String.mk (base64Chunks bytes)

/-- UTF-8 encoding of one character (what `Buffer.from(str)` stores per
character). -/
def utf8Char (c : Char) : List Nat :=
  if c.toNat < 128 then [c.toNat]
  else if c.toNat < 2048 then [192 + c.toNat / 64, 128 + c.toNat % 64]
  else if c.toNat < 65536 then
    [224 + c.toNat / 4096, 128 + (c.toNat / 64) % 64, 128 + c.toNat % 64]
  else
    [240 + c.toNat / 262144, 128 + (c.toNat / 4096) % 64,
      128 + (c.toNat / 64) % 64, 128 + c.toNat % 64]

/-- The UTF-8 bytes of a string: what the Node branch
`Buffer.from(str).toString("base64")` encodes. -/
def utf8Bytes (s : String) : List Nat :=
  s.data.foldr (fun c acc => utf8Char c ++ acc) []

/-- The browser branch `window.btoa(str)`: base64 of the code points,
provided every code point fits in a byte (otherwise `btoa` throws a
`DOMException`, modelled as `none`). -/
def btoa (s : String) : Option String :=
  if s.data.all (fun c => c.toNat ≤ 255) then
    some (base64Encode (s.data.map Char.toNat))
  else none

/-- Embedding of `toBase64(str)` from `src/lib/utils.ts`: the branch on
`typeof window === "undefined"` is modelled by the explicit environment
flag `isServer` — Node uses `Buffer` over the UTF-8 bytes, the browser
uses `window.btoa`. -/
def toBase64 (isServer : Bool) (s : String) : Option String :=
  if isServer then some (base64Encode (utf8Bytes s)) else btoa s

/-- The data URL of the shimmer SVG for a given width and height:
`data:image/svg+xml;base64,` followed by `toBase64(shimmer(w, h))`. -/
def shimmerDataUrl (isServer : Bool) (w h : Nat) : Option String :=
  (toBase64 isServer (shimmer w h)).map
    (fun b => "data:image/svg+xml;base64," ++ b)

/-- Embedding of `getDataUrl()` from `src/lib/utils.ts`: the shimmer
data URL at the fixed size 1000×1000. -/
def getDataUrl (isServer : Bool) : Option String := shimmerDataUrl isServer 1000 1000

/-- The module-level constant `dataUrl`, computed once at load. -/
def dataUrl (isServer : Bool) : Option String := getDataUrl isServer

theorem utf8Char_ascii {c : Char} (h : c.toNat < 128) : utf8Char c = [c.toNat] := by
  rw [utf8Char, if_pos h]

theorem utf8list_ascii :
    ∀ cs : List Char, cs.all (fun c => c.toNat < 128) = true →
      cs.foldr (fun c acc => utf8Char c ++ acc) [] = cs.map Char.toNat := by
  intro cs
  induction cs with
  | nil => intro _; rfl
  | cons c rest ih =>
    intro h
    simp only [List.all_cons, Bool.and_eq_true, decide_eq_true_eq] at h
    rw [List.foldr_cons, List.map_cons, ih h.2, utf8Char_ascii h.1]
    rfl

theorem utf8Bytes_ascii {s : String}
    (h : s.data.all (fun c => c.toNat < 128) = true) :
    utf8Bytes s = s.data.map Char.toNat := by
  rw [utf8Bytes]
  exact utf8list_ascii s.data h

theorem toBase64_env_irrelevant {s : String}
    (h : s.data.all (fun c => c.toNat < 128) = true) :
    ∀ env1 env2 : Bool, toBase64 env1 s = toBase64 env2 s := by
  have hle : s.data.all (fun c => c.toNat ≤ 255) = true := by
    simp only [List.all_eq_true, decide_eq_true_eq] at h ⊢
    intro c hc
    exact Nat.le_of_lt (Nat.lt_of_lt_of_le (h c hc) (by omega))
  have hsame : toBase64 true s = toBase64 false s := by
    rw [toBase64, toBase64, if_pos rfl, if_neg (by simp), btoa, if_pos hle,
      utf8Bytes_ascii h]
  intro env1 env2
  cases env1 <;> cases env2 <;> simp [hsame]

set_option maxRecDepth 8000

/-- **C8.** The shimmer placeholder generation is deterministic and free
of external state: for a fixed `(w, h)` whose SVG text is ASCII (always
the case — the template and decimal dimensions are ASCII), the data-URL
output is byte-identical across evaluations, in particular regardless of
the runtime environment (`Buffer` on the server versus `window.btoa` in
the browser — the only external dependence in the source); the
module-level `dataUrl` constant is likewise environment-independent. -/
theorem shimmerDataUrl_deterministic :
    (∀ w h : Nat, (shimmer w h).data.all (fun c => c.toNat < 128) = true →
        ∀ env1 env2 : Bool, shimmerDataUrl env1 w h = shimmerDataUrl env2 w h)
    ∧ (∀ env1 env2 : Bool, dataUrl env1 = dataUrl env2) := by
  constructor
  · intro w h hascii env1 env2
    rw [shimmerDataUrl, shimmerDataUrl, toBase64_env_irrelevant hascii env1 env2]
  · intro env1 env2
    have hascii : (shimmer 1000 1000).data.all (fun c => c.toNat < 128) = true := by
      decide
    rw [dataUrl, dataUrl, getDataUrl, getDataUrl, shimmerDataUrl, shimmerDataUrl,
      toBase64_env_irrelevant hascii env1 env2]

/-- Witness for C8 at `(w, h) = (2, 3)` and the two distinct environments. -/
theorem shimmerDataUrl_deterministic_witness :
    shimmerDataUrl true 2 3 = shimmerDataUrl false 2 3 :=
  shimmerDataUrl_deterministic.1 2 3 (by decide) true false

set_option maxRecDepth 512

/-! ## File download -/

/-- `filename.replace(" ", "_")`: with a string pattern, JavaScript
`String.prototype.replace` replaces only the first occurrence. -/
def replaceFirstSpace : List Char → List Char
  | [] => []
  | c :: rest => if c = ' ' then '_' :: rest else c :: replaceFirstSpace rest

/-- The observable outcome of one call to `download`. -/
inductive DownloadResult where
  | thrown : String → DownloadResult
  | saved : Option String → DownloadResult
  | failureLogged : DownloadResult
  deriving DecidableEq

/-- Embedding of `download(url, filename)` from `src/lib/utils.ts`.  An
empty (falsy) `url` throws synchronously before any fetch; `fetchOk`
models whether the `fetch` promise chain resolves.  On success the
anchor is clicked, with its `download` attribute set to the transformed
filename only when `filename` is truthy and non-empty; a rejected fetch
reaches the `.catch` handler, which logs the error and escalates
nothing. -/
def download (url : String) (filename : Option String) (fetchOk : Bool) :
    DownloadResult :=
  if url = "" then .thrown "Resource URL not provided! You need to provide one"
  else if fetchOk then
    .saved
      (match filename with
       | some f =>
         if f.length ≠ 0 then some (String.mk (replaceFirstSpace f.data) ++ ".png")
         else none
       | none => none)
  else .failureLogged

/-- **C9.** For every non-empty filename, a successful download names
the saved file by replacing the first space (only the first occurrence)
of the filename with an underscore and suffixing `.png`; and a failure
of the underlying fetch is logged and dropped without escalating — the
function does not throw on fetch failure. -/
theorem download_naming_and_failure_policy :
    (∀ url f, url ≠ "" → f ≠ "" →
        download url (some f) true
          = .saved (some (String.mk (replaceFirstSpace f.data) ++ ".png")))
    ∧ (∀ pre post : List Char, ' ' ∉ pre →
        replaceFirstSpace (pre ++ ' ' :: post) = pre ++ '_' :: post)
    ∧ (∀ cs : List Char, ' ' ∉ cs → replaceFirstSpace cs = cs)
    ∧ (∀ url f, url ≠ "" → download url f false = .failureLogged)
    ∧ (∀ url f msg, url ≠ "" → download url f false ≠ .thrown msg)
    ∧ download "u" (some "a b c") true = .saved (some "a_b c.png") := by
  refine ⟨?_, ?_, ?_, ?_, ?_, rfl⟩
  · intro url f hurl hf
    rw [download, if_neg hurl, if_pos rfl]
    have : f.length ≠ 0 := by
      intro h
      exact hf (String.ext (List.length_eq_zero.mp h))
    simp [this]
  · intro pre post hpre
    induction pre with
    | nil => simp [replaceFirstSpace]
    | cons c rest ih =>
      simp only [List.mem_cons] at hpre
      push_neg at hpre
      rw [List.cons_append, replaceFirstSpace, if_neg (fun a => hpre.1 a.symm),
        ih hpre.2]
      simp
  · intro cs hcs
    induction cs with
    | nil => rfl
    | cons c rest ih =>
      simp only [List.mem_cons] at hcs
      push_neg at hcs
      rw [replaceFirstSpace, if_neg (fun a => hcs.1 a.symm), ih hcs.2]
  · intro url f hurl
    rw [download.eq_def, if_neg hurl, if_neg (show ¬ (false = true) by simp)]
  · intro url f msg hurl
    rw [download.eq_def, if_neg hurl, if_neg (show ¬ (false = true) by simp)]
    exact fun h => DownloadResult.noConfusion h

/-- Witness for C9: a successful download of `a b c` saves `a_b c.png`
(only the first space replaced), and a failed fetch at a non-empty URL
only logs. -/
theorem download_naming_and_failure_policy_witness :
    download "u" (some "a b c") true = .saved (some "a_b c.png")
    ∧ download "u" (some "a b c") false = .failureLogged :=
  ⟨(download_naming_and_failure_policy.1 "u" "a b c" (by decide) (by decide)).trans
     (by rfl),
   download_naming_and_failure_policy.2.2.2.1 "u" (some "a b c") (by decide)⟩

/-- **C10.** `download(url, filename)` throws synchronously with the
message `Resource URL not provided! You need to provide one` whenever
`url` is empty (falsy) — before initiating any fetch or side effect (the
guard precedes the fetch in the source, so the outcome is `thrown`
regardless of `fetchOk`) — and for any non-empty `url` it does not throw
synchronously. -/
theorem download_empty_url_throws :
    (∀ filename fetchOk, download "" filename fetchOk
        = .thrown "Resource URL not provided! You need to provide one")
    ∧ (∀ url filename fetchOk msg, url ≠ "" →
        download url filename fetchOk ≠ .thrown msg) := by
  constructor
  · intro filename fetchOk
    rw [download.eq_def, if_pos rfl]
  · intro url filename fetchOk msg hurl
    rw [download.eq_def, if_neg hurl]
    cases fetchOk with
    | true =>
      rw [if_pos rfl]
      exact fun h => DownloadResult.noConfusion h
    | false =>
      rw [if_neg (show ¬ (false = true) by simp)]
      exact fun h => DownloadResult.noConfusion h

/-- Witness for C10: the empty URL throws; the URL `u` never yields the
thrown outcome. -/
theorem download_empty_url_throws_witness :
    download "" (some "f") true
      = .thrown "Resource URL not provided! You need to provide one"
    ∧ download "u" (some "f") true
      ≠ .thrown "Resource URL not provided! You need to provide one" :=
  ⟨download_empty_url_throws.1 (some "f") true,
   download_empty_url_throws.2 "u" (some "f") true
     "Resource URL not provided! You need to provide one" (by decide)⟩

end Magnify
